import Mathlib

/-!
Verification of the response-processing pipeline of MaryAndFriends
(`Mary2ish/app/utils/response_processing.py`).

The pipeline is embedded shallowly over `List Char`.  Every fixed regular
expression of the source is compiled by hand into either a dedicated
scanner (for the span-extraction patterns, whose leftmost / non-greedy /
one-level-nesting semantics are derived from the Python `re` backtracking
rules) or into a small backtracking matcher `reM` (for the anchored
line-classification patterns, which are only ever used as boolean tests).
The Python operations `str.strip`, `str.split` on newline, `str.join`,
`str.replace` and `str.lower` are modelled for ASCII text, which is the scope of all
statements proved here.
-/

namespace RP

/-- Python whitespace characters (ASCII fragment of `str.strip` / `\s`). -/
def isPySpace (c : Char) : Bool :=
  decide (c = ' ' ∨ c = '\t' ∨ c = '\n' ∨ c = '\r' ∨ c = '\x0b' ∨ c = '\x0c')

/-- ASCII lower-casing of one character, as `str.lower` acts on ASCII. -/
def lowerC (c : Char) : Char :=
  if 'A' ≤ c ∧ c ≤ 'Z' then Char.ofNat (c.toNat + 32) else c

/-- ASCII lower-casing of a character list. -/
def lowerL (l : List Char) : List Char := l.map lowerC

/-- Python `str.strip()` (ASCII whitespace). -/
def strip (l : List Char) : List Char :=
  ((l.dropWhile isPySpace).reverse.dropWhile isPySpace).reverse

/-- Python `str.split('\n')`: always returns at least one (possibly empty) part. -/
def splitLines : List Char → List (List Char)
  | [] => [[]]
  | c :: t =>
    if c = '\n' then [] :: splitLines t
    else
      match splitLines t with
      | [] => [[c]]
      | h :: r => (c :: h) :: r

/-- Python `'\n'.join`. -/
def joinLines : List (List Char) → List Char
  | [] => []
  | [l] => l
  | l :: ls => l ++ '\n' :: joinLines ls

/-- Python string join with a blank-line separator. -/
def joinBlank : List (List Char) → List Char
  | [] => []
  | [l] => l
  | l :: ls => l ++ '\n' :: '\n' :: joinBlank ls

/-- Exact (case-sensitive) list-prefix test. -/
def isPrefA : List Char → List Char → Bool
  | [], _ => true
  | _ :: _, [] => false
  | p :: ps, c :: cs => p == c && isPrefA ps cs

/-- Case-insensitive (ASCII) list-prefix test. -/
def isPrefCIa : List Char → List Char → Bool
  | [], _ => true
  | _ :: _, [] => false
  | p :: ps, c :: cs => lowerC p == lowerC c && isPrefCIa ps cs

/-- Index of the first (case-sensitive) occurrence of `pat`. -/
def findIdxA (pat : List Char) : List Char → Option Nat
  | [] => if isPrefA pat [] then some 0 else none
  | c :: t =>
    if isPrefA pat (c :: t) then some 0
    else (findIdxA pat t).map (· + 1)

/-- Index of the first case-insensitive occurrence of `pat`. -/
def findIdxCI (pat : List Char) : List Char → Option Nat
  | [] => if isPrefCIa pat [] then some 0 else none
  | c :: t =>
    if isPrefCIa pat (c :: t) then some 0
    else (findIdxCI pat t).map (· + 1)

/-- Case-sensitive substring test (the Python `in` operator on strings). -/
def containsSub (pat s : List Char) : Bool := (findIdxA pat s).isSome

/-- Opening delimiter of the reasoning tag (source line 63). -/
def thinkOpen : List Char := "<think>".toList

/-- Closing delimiter of the reasoning tag (source line 63). -/
def thinkClose : List Char := "</think>".toList

/-- Scanner for the pattern `<think>(.*?)</think>` with `re.DOTALL | re.IGNORECASE`
(source lines 63-69): finds the leftmost non-overlapping pairs (non-greedy, so each
open tag pairs with the nearest later close tag), removes the matched spans, and
collects the inner contents in order.  Returns (text with spans removed, inners).
Fuel-driven; fuel `length + 1` always suffices, and exhausted fuel leaves the
remaining text unchanged. -/
def thinkScanF : Nat → List Char → List Char × List (List Char)
  | 0, s => (s, [])
  | _ + 1, [] => ([], [])
  | f + 1, c :: t =>
    if isPrefCIa thinkOpen (c :: t) then
      match findIdxCI thinkClose ((c :: t).drop 7) with
      | some j =>
        ((thinkScanF f (((c :: t).drop 7).drop (j + 8))).1,
          ((c :: t).drop 7).take j :: (thinkScanF f (((c :: t).drop 7).drop (j + 8))).2)
      | none => (c :: (thinkScanF f t).1, (thinkScanF f t).2)
    else (c :: (thinkScanF f t).1, (thinkScanF f t).2)

/-- Tag-delimited extraction pass over a whole text. -/
def thinkScan (s : List Char) : List Char × List (List Char) :=
  thinkScanF (s.length + 1) s

/-- Number of newline characters in a list. -/
def countNL (l : List Char) : Nat := l.count '\n'

/-- Scanner for the substitution of the pattern `\n\s*\n\s*\n` (and of the
variant with a trailing plus) by two newlines (source lines 72, 464, 482): both patterns
match, at each leftmost match position, from a newline through the last newline of
the maximal whitespace run starting there, provided that run contains at least
three newlines; the span is replaced by exactly two newlines and scanning resumes
after it.  The characters of the run after its last newline contain no newline,
so no further match can begin inside them and they are emitted verbatim. -/
def collapseF : Nat → List Char → List Char
  | 0, s => s
  | _ + 1, [] => []
  | f + 1, c :: t =>
    if c = '\n' ∧ 3 ≤ countNL ((c :: t).takeWhile isPySpace) then
      '\n' :: '\n' ::
        (((c :: t).takeWhile isPySpace).reverse.takeWhile (fun x => !(x == '\n'))).reverse ++
          collapseF f ((c :: t).drop ((c :: t).takeWhile isPySpace).length)
    else
      c :: collapseF f t

/-- Whitespace-run collapsing used by the pipeline (3+ newlines become 2). -/
def collapseNL (s : List Char) : List Char := collapseF (s.length + 1) s

/-- Python `str.replace(pat, repl)`: leftmost, non-overlapping, all occurrences. -/
def replaceAllF : Nat → List Char → List Char → List Char → List Char
  | 0, _, _, s => s
  | _ + 1, _, _, [] => []
  | f + 1, pat, repl, c :: t =>
    if pat.isEmpty then c :: t
    else if isPrefA pat (c :: t) then
      repl ++ replaceAllF f pat repl ((c :: t).drop pat.length)
    else
      c :: replaceAllF f pat repl t

/-- Python `str.replace` wrapper. -/
def replaceAll (pat repl s : List Char) : List Char :=
  replaceAllF (s.length + 1) pat repl s

/-- Shapes of the markup-block patterns of source lines 326-331 and 340-344:
`litPair o c` embeds `o.*?c` for literal delimiters (e.g.
`<function_calls>.*?</function_calls>`), and `anglePair o c` embeds
`o[^>]*>.*?c` (e.g. `<invoke[^>]*>.*?</invoke>`), both with `re.DOTALL` and
case-sensitive. -/
inductive MPat where
  | litPair (o c : List Char)
  | anglePair (o c : List Char)

/-- Length of the markup-pattern match anchored at the head of `s`, if any.
For `anglePair`, `[^>]*` greedily runs to the first `>` (the class cannot pass
it), after which `.*?` finds the nearest closing literal. -/
def mpatMatchAt (p : MPat) (s : List Char) : Option Nat :=
  match p with
  | .litPair o c =>
    if isPrefA o s then
      match findIdxA c (s.drop o.length) with
      | some j => some (o.length + j + c.length)
      | none => none
    else none
  | .anglePair o c =>
    if isPrefA o s then
      let afterOpen := s.drop o.length
      let k := (afterOpen.takeWhile (fun ch => !(ch == '>'))).length
      match afterOpen.drop k with
      | '>' :: rest2 =>
        match findIdxA c rest2 with
        | some j => some (o.length + k + 1 + j + c.length)
        | none => none
      | _ => none
    else none

/-- `re.findall` for a markup pattern: leftmost non-overlapping full matches. -/
def mpatFindAllF : Nat → MPat → List Char → List (List Char)
  | 0, _, _ => []
  | _ + 1, _, [] => []
  | f + 1, p, c :: t =>
    match mpatMatchAt p (c :: t) with
    | some n => (c :: t).take n :: mpatFindAllF f p ((c :: t).drop n)
    | none => mpatFindAllF f p t

/-- `re.findall` wrapper for markup patterns. -/
def mpatFindAll (p : MPat) (s : List Char) : List (List Char) :=
  mpatFindAllF (s.length + 1) p s

/-- The seven markup patterns, in source order: `function_call_patterns`
(lines 326-331, with the `<invoke>` pattern duplicated as in the source)
followed by `result_patterns` (lines 340-344). -/
def markupPatterns : List MPat :=
  [MPat.litPair ("<function_calls>".toList) ("</function_calls>".toList),
   MPat.anglePair ("<invoke".toList) ("</invoke>".toList),
   MPat.anglePair ("<invoke".toList) ("</invoke>".toList),
   MPat.anglePair ("<parameter".toList) ("</parameter>".toList),
   MPat.litPair ("<function_results>".toList) ("</function_results>".toList),
   MPat.litPair ("<fnr>".toList) ("</fnr>".toList),
   MPat.litPair ("<function_calls>".toList) ("</function_calls>".toList)]

/-- One `findall` / `replace` round for a pattern list (source lines 333-350 and
476-480): for each pattern, find all matches in the current text, then delete
every occurrence of each match (Python `str.replace` with empty replacement),
collecting the
matches in order. -/
def remMk : List MPat → List Char → List Char × List (List Char)
  | [], s => (s, [])
  | p :: ps, s =>
    let ms := mpatFindAll p s
    let s1 := ms.foldl (fun cur m => replaceAll m [] cur) s
    let r := remMk ps s1
    (r.1, ms ++ r.2)

/-- Steps 1-2 of the enhanced pass, also reused verbatim by the Tier-2 fallback
(source lines 325-350 and 472-480). -/
def removeMarkup (s : List Char) : List Char × List (List Char) :=
  remMk markupPatterns s

/-- End offset (exclusive, counted from just after the opening bracket) of the
one-level-nested bracket span `\{[^{}]*(?:\{[^{}]*\}[^{}]*)*\}` (source lines
353-356): the content may contain complete non-nested inner pairs; a second-level
opening bracket aborts the candidate, and the first top-level closing bracket
ends it. -/
def braceEnd (op cl : Char) : List Char → Bool → Option Nat
  | [], _ => none
  | c :: t, nested =>
    if c = op then
      if nested then none else (braceEnd op cl t true).map (· + 1)
    else if c = cl then
      if nested then (braceEnd op cl t false).map (· + 1) else some 1
    else (braceEnd op cl t nested).map (· + 1)

/-- `re.findall` for the bracketed-data patterns: leftmost non-overlapping spans;
a failed candidate restarts the scan one character further. -/
def braceFindAllF : Nat → Char → Char → List Char → List (List Char)
  | 0, _, _, _ => []
  | _ + 1, _, _, [] => []
  | f + 1, op, cl, c :: t =>
    if c = op then
      match braceEnd op cl t false with
      | some n => (c :: t.take n) :: braceFindAllF f op cl (t.drop n)
      | none => braceFindAllF f op cl t
    else braceFindAllF f op cl t

/-- `re.findall` wrapper for a bracketed-data pattern. -/
def braceFindAll (op cl : Char) (s : List Char) : List (List Char) :=
  braceFindAllF (s.length + 1) op cl s

/-- The fixed API-payload keyword set of source lines 362-366. -/
def apiKeywords : List (List Char) :=
  ["title".toList, "url".toList, "id".toList, "name".toList, "type".toList,
   "status".toList, "result".toList, "search".toList, "data".toList,
   "response".toList, "query".toList, "results_found".toList, "score".toList,
   "snippet".toList, "web".toList, "results".toList, "description".toList]

/-- Keyword gate of source line 362: the lowercased match must contain one of
the API-payload keywords as a substring. -/
def keywordHit (m : List Char) : Bool :=
  apiKeywords.any (fun k => containsSub k (lowerL m))

/-- Per-match processing of step 3 (source lines 360-368): a keyword-gated match
is appended to the structured-data collection and every occurrence of it is
deleted from the working text. -/
def jsonFold : List (List Char) → List Char × List (List Char) → List Char × List (List Char)
  | [], st => st
  | m :: ms, st =>
    jsonFold ms (if keywordHit m then (replaceAll m [] st.1, st.2 ++ [m]) else st)

/-- One bracketed-data pass: candidates are found in the current text, then
filtered and removed. -/
def applyJsonPat (op cl : Char) (st : List Char × List (List Char)) :
    List Char × List (List Char) :=
  jsonFold (braceFindAll op cl st.1) st

/-- Step 3 of the enhanced pass (source lines 352-368): the `{...}` pass runs
first, then the `[...]` pass on the updated text. -/
def step3 (s : List Char) : List Char × List (List Char) :=
  applyJsonPat '[' ']' (applyJsonPat '{' '}' (s, []))

/-- Syntax of the anchored line-test patterns: literals, character classes,
greedy star over a class, option, sequencing, alternation and the `$` anchor.
This covers every pattern the source applies with `re.match` as a boolean
test. -/
inductive RE where
  | lit (c : Char)
  | cstr (l : List Char)
  | cls (p : Char → Bool)
  | star (p : Char → Bool)
  | opt (r : RE)
  | seq (a b : RE)
  | alt (a b : RE)
  | eos

/-- Greedy star over a character class, in continuation-passing style; a Boolean
result makes the greedy/lazy distinction irrelevant (it is pure backtracking
search). -/
def starM (p : Char → Bool) : List Char → (List Char → Bool) → Bool
  | [], k => k []
  | c :: t, k => (if p c then starM p t k else false) || k (c :: t)

/-- Backtracking matcher for `RE`, equivalent to Python `re` on this fragment
when only success is observed. -/
def reM : RE → List Char → (List Char → Bool) → Bool
  | .lit c, s, k =>
    match s with
    | [] => false
    | x :: t => x == c && k t
  | .cstr l, s, k => isPrefA l s && k (s.drop l.length)
  | .cls p, s, k =>
    match s with
    | [] => false
    | x :: t => p x && k t
  | .star p, s, k => starM p s k
  | .opt r, s, k => reM r s k || k s
  | .seq a b, s, k => reM a s (fun t => reM b t k)
  | .alt a b, s, k => reM a s k || reM b s k
  | .eos, s, k => s.isEmpty && k s

/-- Python `re.match(pattern, s)` viewed as a boolean prefix test. -/
def reTest (r : RE) (s : List Char) : Bool := reM r s (fun _ => true)

/-- Sequencing of a pattern list. -/
def seqL : List RE → RE
  | [] => .cstr []
  | [r] => r
  | r :: rs => .seq r (seqL rs)

/-- Alternation of a pattern list (empty alternation never matches). -/
def altL : List RE → RE
  | [] => .cls (fun _ => false)
  | [r] => r
  | r :: rs => .alt r (altL rs)

/-- Alternation of string literals. -/
def altStrs (l : List (List Char)) : RE := altL (l.map RE.cstr)

/-- Regex `\w` (ASCII). -/
def isWordC (c : Char) : Bool :=
  decide (('a' ≤ c ∧ c ≤ 'z') ∨ ('A' ≤ c ∧ c ≤ 'Z') ∨ ('0' ≤ c ∧ c ≤ '9') ∨ c = '_')

/-- Regex `\d`. -/
def isDigitC (c : Char) : Bool := decide ('0' ≤ c ∧ c ≤ '9')

/-- Regex class `[A-Z_]`. -/
def isUpperU (c : Char) : Bool := decide (('A' ≤ c ∧ c ≤ 'Z') ∨ c = '_')

/-- Regex class holding the double and single quote characters. -/
def isQuoteC (c : Char) : Bool := decide (c = '"' ∨ c = '\'')

/-- Regex class of metadata pattern 6: ASCII letters, digits, and the characters
at-sign, dot, underscore, slash, hyphen. -/
def isIdC (c : Char) : Bool :=
  decide (('a' ≤ c ∧ c ≤ 'z') ∨ ('A' ≤ c ∧ c ≤ 'Z') ∨ ('0' ≤ c ∧ c ≤ '9') ∨
    c = '@' ∨ c = '.' ∨ c = '_' ∨ c = '/' ∨ c = '-')

/-- Regex `p+` as `p p*`. -/
def plusC (p : Char → Bool) : RE := .seq (.cls p) (.star p)

/-- Regex `\s*`. -/
def wsS : RE := .star isPySpace

/-- Metadata pattern `^\s*[A-Z_]{2,}:\s*` (source line 377). -/
def mdPat1 : RE := seqL [wsS, .cls isUpperU, plusC isUpperU, .lit ':', wsS]

/-- Metadata pattern `^\s*\w+:\s*https?://[^\s]+$` (source line 378). -/
def mdPat2 : RE :=
  seqL [wsS, plusC isWordC, .lit ':', wsS, .cstr ("http".toList), .opt (.lit 's'),
    .cstr ("://".toList), plusC (fun c => !isPySpace c), .eos]

/-- Metadata pattern `^\s*\w+:\s*\d+(\.\d+)?(/\d+)?$` (source line 379). -/
def mdPat3 : RE :=
  seqL [wsS, plusC isWordC, .lit ':', wsS, plusC isDigitC,
    .opt (.seq (.lit '.') (plusC isDigitC)), .opt (.seq (.lit '/') (plusC isDigitC)), .eos]

/-- Metadata pattern `^\s*\w+:\s*\d{4}-\d{2}-\d{2}` (source line 380). -/
def mdPat4 : RE :=
  seqL [wsS, plusC isWordC, .lit ':', wsS, .cls isDigitC, .cls isDigitC,
    .cls isDigitC, .cls isDigitC, .lit '-', .cls isDigitC, .cls isDigitC,
    .lit '-', .cls isDigitC, .cls isDigitC]

/-- Metadata pattern 5 (source line 381): optional whitespace, an optionally
quoted word key, optional whitespace, a colon, optional whitespace, an
optionally quoted value without quote characters, optional whitespace, an
optional comma, optional whitespace, anchored at the end. -/
def mdPat5 : RE :=
  seqL [wsS, .opt (.cls isQuoteC), plusC isWordC, .opt (.cls isQuoteC), wsS,
    .lit ':', wsS, .opt (.cls isQuoteC), plusC (fun c => !isQuoteC c),
    .opt (.cls isQuoteC), wsS, .opt (.lit ','), wsS, .eos]

/-- Metadata pattern 6 (source line 382): optional whitespace, a word key, a
colon, optional whitespace, then one or more identifier characters (`isIdC`),
anchored at the end. -/
def mdPat6 : RE := seqL [wsS, plusC isWordC, .lit ':', wsS, plusC isIdC, .eos]

/-- The six `metadata_patterns` of source lines 376-383, in order. -/
def metadataPatterns : List RE := [mdPat1, mdPat2, mdPat3, mdPat4, mdPat5, mdPat6]

/-- Metadata test of source line 404, applied to the stripped line. -/
def isMetadataLine (ls : List Char) : Bool :=
  metadataPatterns.any (fun r => reTest r ls)

/-- The four first-person contraction literals of the opener tables. -/
def contrPats : List (List Char) :=
  [['i', '\'', 'd'], ['i', '\'', 'l', 'l'], ['i', '\'', 'm'], ['i', '\'', 'v', 'e']]

/-- The `human_indicators` of the enhanced classifier (source lines 431-438). -/
def hiPats : List RE :=
  [altStrs ["here".toList, "this".toList, "that".toList, "these".toList,
     "those".toList, "i".toList, "you".toList, "we".toList, "they".toList],
   altStrs ["based on".toList, "according to".toList, "looking at".toList,
     "from".toList, "after".toList],
   altStrs ["would".toList, "could".toList, "should".toList, "can".toList,
     "may".toList, "might".toList, "let me".toList],
   altStrs ["yes,".toList, "no,".toList, "sure,".toList, "certainly,".toList,
     "absolutely,".toList, "unfortunately,".toList],
   altStrs (contrPats ++ ["let me".toList, "allow me".toList]),
   altL [.seq (.cstr ("the ".toList)) (plusC isWordC),
     .seq (.cstr ("a ".toList)) (plusC isWordC),
     .seq (.cstr ("an ".toList)) (plusC isWordC)]]

/-- Conversational-opener test of source line 440, on the lowercased stripped
line. -/
def looksConversational (lower : List Char) : Bool :=
  hiPats.any (fun r => reTest r lower)

/-- The `human_indicators` of `process_mcp_response` (source lines 211-217). -/
def hiPatsMcp : List RE :=
  [altStrs ["based on".toList, "according to".toList, "i found".toList,
     "i can".toList, "here".toList, "this".toList, "the analysis".toList,
     "the results".toList],
   altStrs ["looking at".toList, "from what".toList, "it appears".toList,
     "it seems".toList, "the information".toList],
   altStrs ["to answer".toList, "in summary".toList, "in conclusion".toList,
     "overall".toList, "generally".toList],
   altStrs ["yes,".toList, "no,".toList, "sure,".toList, "certainly,".toList,
     "absolutely,".toList, "unfortunately,".toList],
   altStrs (contrPats ++ ["let me".toList, "allow me".toList])]

/-- Conversational-opener test of source line 219. -/
def looksConversationalMcp (lower : List Char) : Bool :=
  hiPatsMcp.any (fun r => reTest r lower)

/-- State of the enhanced line classifier (source lines 386-388): whether human
content has started, whether a metadata block is open, the buffered block lines,
the retained narrative lines and the technical lines. -/
structure EState where
  started : Bool
  inBlock : Bool
  block : List (List Char)
  clean : List (List Char)
  mcp : List (List Char)
deriving DecidableEq

/-- Initial classifier state. -/
def initE : EState :=
  { started := false, inBlock := false, block := [], clean := [], mcp := [] }

/-- Metadata-block resolution (source lines 417-424 and 450-454): a block of at
least three lines, or any block before human content started, goes to the
technical lines; otherwise it is folded into the narrative. -/
def flushBlock (st : EState) : EState :=
  if 3 ≤ st.block.length ∨ st.started = false then
    { st with mcp := st.mcp ++ st.block, inBlock := false, block := [] }
  else
    { st with clean := st.clean ++ st.block, inBlock := false, block := [] }

/-- Handling of a non-blank, non-metadata line (source lines 429-447): decide
whether human content starts here (conversational opener or length over 25),
then append the line to the narrative. -/
def classifyStart (st : EState) (line : List Char) : EState :=
  if st.started = false ∧
      (looksConversational (lowerL (strip line)) ∨ 25 < (strip line).length) then
    { st with started := true, clean := st.clean ++ [line] }
  else { st with clean := st.clean ++ [line] }

/-- One iteration of the enhanced classifier loop (source lines 390-447). -/
def classifyLine (st : EState) (line : List Char) : EState :=
  if (strip line).isEmpty then
    if st.inBlock then { st with block := st.block ++ [line] }
    else if st.started then { st with clean := st.clean ++ [line] }
    else { st with mcp := st.mcp ++ [line] }
  else if isMetadataLine (strip line) then
    if st.inBlock then { st with block := st.block ++ [line] }
    else { st with inBlock := true, block := [line] }
  else if st.inBlock then classifyStart (flushBlock st) line
  else classifyStart st line

/-- Trailing-block resolution after the loop (source lines 450-454). -/
def finishBlocks (st : EState) : EState :=
  if st.inBlock ∧ st.block ≠ [] then flushBlock st else st

/-- The whole line-classification step 4 of the enhanced pass. -/
def classifyAll (lines : List (List Char)) : EState :=
  finishBlocks (lines.foldl classifyLine initE)

/-- The enhanced classifier keeps every state component inside the processed
lines: a closed block is empty, and narrative and technical accumulations each
extended by the pending block are sublists of the processed prefix. -/
def EInv (st : EState) (pfx : List (List Char)) : Prop :=
  (st.inBlock = false → st.block = []) ∧
    (st.clean ++ st.block).Sublist pfx ∧ (st.mcp ++ st.block).Sublist pfx

/-- Classifier state reached by the enhanced pass on input `r`, after markup
removal (steps 1-2), bracketed-data removal (step 3) and line classification
(step 4). -/
def mainState (r : List Char) : EState :=
  classifyAll (splitLines (step3 (removeMarkup r).1).1)

/-- All structured-data chunks collected by the enhanced main pass, in order:
markup matches, bracketed-data matches, then the joined technical lines if any
(source lines 322-368 and 460-461). -/
def mainAllMcp (r : List Char) : List (List Char) :=
  (removeMarkup r).2 ++ (step3 (removeMarkup r).1).2 ++
    (if (mainState r).mcp.isEmpty then [] else [joinLines (mainState r).mcp])

/-- Narrative produced by the enhanced main pass: retained lines joined,
stripped, then blank-run collapsed (source lines 457 and 464). -/
def mainCleanOf (r : List Char) : List Char :=
  collapseNL (strip (joinLines (mainState r).clean))

/-- Structured data of the enhanced main pass (source line 467): blank-line join
of all chunks, stripped; absent when nothing was collected. -/
def mainMcpOf (r : List Char) : Option (List Char) :=
  if (mainAllMcp r).isEmpty then none else some (strip (joinBlank (mainAllMcp r)))

/-- Tier-2 narrative (source lines 472-482): only markup blocks removed from the
original input, blank runs collapsed, stripped. -/
def tier2CleanOf (r : List Char) : List Char :=
  strip (collapseNL (removeMarkup r).1)

/-- Tier-2 structured data (source line 483). -/
def tier2McpOf (r : List Char) : Option (List Char) :=
  if (removeMarkup r).2.isEmpty then none
  else some (strip (joinBlank (removeMarkup r).2))

/-- Narrative component of `process_mcp_response_enhanced` (source lines
306-491): empty-input guard, then the Tier-2 check of line 470 (the Python
comparison `len(clean) < len(response) * 0.25` is exact rational arithmetic at
these magnitudes, embedded as `4 * len(clean) < len(response)`), then the
empty-narrative fallback of line 488, then the main-pass value. -/
def enhancedNarrative (r : List Char) : List Char :=
  if (strip r).isEmpty then []
  else if ¬(mainCleanOf r).isEmpty = true ∧ 4 * (mainCleanOf r).length < r.length then
    tier2CleanOf r
  else if (mainCleanOf r).isEmpty = true ∧ ¬(strip r).isEmpty = true then strip r
  else mainCleanOf r

/-- Structured-data component of `process_mcp_response_enhanced`, with the same
branch structure as `enhancedNarrative`. -/
def enhancedData (r : List Char) : Option (List Char) :=
  if (strip r).isEmpty then none
  else if ¬(mainCleanOf r).isEmpty = true ∧ 4 * (mainCleanOf r).length < r.length then
    tier2McpOf r
  else if (mainCleanOf r).isEmpty = true ∧ ¬(strip r).isEmpty = true then mainMcpOf r
  else mainMcpOf r

/-- The function `process_mcp_response_enhanced` (source lines 306-491). -/
def process_mcp_response_enhanced (r : List Char) : List Char × Option (List Char) :=
  (enhancedNarrative r, enhancedData r)

/-- The function `process_thinking_response` (source lines 50-80): remove the
tag-delimited reasoning spans, collapse blank runs, strip; the reasoning value
is the blank-line join of the stripped inner contents, or absent when no pair
matched. -/
def process_thinking_response (s : List Char) : List Char × Option (List Char) :=
  (strip (collapseNL (thinkScan s).1),
   if (thinkScan s).2.isEmpty then none
   else some (joinBlank ((thinkScan s).2.map strip)))

/-- The orchestrator `process_agent_response` (source lines 494-513). -/
def process_agent_response (s : List Char) :
    List Char × Option (List Char) × Option (List Char) :=
  ((process_mcp_response_enhanced (process_thinking_response s).1).1,
   (process_thinking_response s).2,
   (process_mcp_response_enhanced (process_thinking_response s).1).2)

/-- Monadic rendering of `process_thinking_response`: the stage contains no
operation that can raise (its regular expressions are fixed valid literals), so
it always returns a value. -/
def process_thinking_responseE (s : List Char) :
    Except String (List Char × Option (List Char)) :=
  Except.ok (process_thinking_response s)

/-- Monadic rendering of `process_mcp_response_enhanced`: no operation in the
stage can raise. -/
def process_mcp_response_enhancedE (r : List Char) :
    Except String (List Char × Option (List Char)) :=
  Except.ok (process_mcp_response_enhanced r)

/-- Monadic rendering of the orchestrator, propagating any error of either
stage as Python would propagate an exception. -/
def process_agent_responseE (s : List Char) :
    Except String (List Char × Option (List Char) × Option (List Char)) :=
  match process_thinking_responseE s with
  | Except.error e => Except.error e
  | Except.ok a =>
    match process_mcp_response_enhancedE a.1 with
    | Except.error e => Except.error e
    | Except.ok b => Except.ok (b.1, a.2, b.2)

/-- State of the `process_mcp_response` classifier loop (source lines 186-189). -/
structure MState where
  started : Bool
  ctr : Nat
  clean : List (List Char)
  mcp : List (List Char)
deriving DecidableEq

/-- The placeholder marker of source lines 107 and 203. -/
def jsonMarker : List Char := "<JSON_BLOCK_REMOVED>".toList

/-- Conversational look-ahead of source lines 209-224: a non-technical line
before human content started may start it (opener patterns or length over 20),
resetting the consecutive-technical counter. -/
def mcpLookahead (isTech : List Char → Bool) (st : MState) (line : List Char) : MState :=
  if isTech line = false ∧ st.started = false ∧
      (looksConversationalMcp (lowerL (strip line)) ∨ 20 < (strip line).length) then
    { st with started := true, ctr := 0 }
  else st

/-- The four routing branches of source lines 226-240. -/
def mcpRoute (isTech : List Char → Bool) (st1 : MState) (line : List Char) : MState :=
  if isTech line = true ∧ st1.started = false then
    { st1 with mcp := st1.mcp ++ [line], ctr := st1.ctr + 1 }
  else if isTech line = true ∧ st1.started = true ∧ st1.ctr < 2 then
    { st1 with clean := st1.clean ++ [line], ctr := 0 }
  else if isTech line = false then
    { st1 with started := true, clean := st1.clean ++ [line], ctr := 0 }
  else
    { st1 with mcp := st1.mcp ++ [line], ctr := st1.ctr + 1 }

/-- One iteration of the `process_mcp_response` loop (source lines 191-240),
parameterised by the line-level technicality predicate
`looks_like_technical_data` so the routing rules can be stated for an arbitrary
technicality verdict.  Blank lines go to the narrative once it has started,
else to a non-empty technical accumulation, else nowhere; placeholder-marker
lines are dropped; otherwise the look-ahead and the routing branches apply. -/
def mcpLoopStep (isTech : List Char → Bool) (st : MState) (line : List Char) : MState :=
  if (strip line).isEmpty then
    if st.started then { st with clean := st.clean ++ [line] }
    else if ¬st.mcp.isEmpty = true then { st with mcp := st.mcp ++ [line] }
    else st
  else if strip line = jsonMarker then st
  else mcpRoute isTech (mcpLookahead isTech st line) line

/-- Channel membership used to state the reconstruction claim: the lines of an
absent structured-data field are the empty collection. -/
def linesOfData : Option (List Char) → List (List Char)
  | none => []
  | some d => splitLines d

/-- Formalisation of the reconstruction claim: the lines of the narrative
together with the lines of the structured data are, as a multiset, exactly the
lines of the post-tag-removal input. -/
def reconstructsLineSeq (s : List Char) : Prop :=
  List.Perm
    (splitLines (process_agent_response s).1 ++ linesOfData (process_agent_response s).2.2)
    (splitLines (process_thinking_response s).1)

/-- Decision procedure for an opening reasoning tag with no matching closing
tag: some case-insensitive occurrence of the open delimiter is followed by no
occurrence of the close delimiter. -/
def hasUnclosedOpenTagF : Nat → List Char → Bool
  | 0, _ => false
  | _ + 1, [] => false
  | f + 1, c :: t =>
    if isPrefCIa thinkOpen (c :: t) then
      (findIdxCI thinkClose ((c :: t).drop 7)).isNone || hasUnclosedOpenTagF f t
    else hasUnclosedOpenTagF f t

/-- Unclosed-open-tag test used to state the malformed-delimiter claim. -/
def hasUnclosedOpenTag (s : List Char) : Bool :=
  hasUnclosedOpenTagF (s.length + 1) s

/-- Reconstruction is decidable, being a permutation of concrete line lists. -/
instance reconstructsDec (s : List Char) : Decidable (reconstructsLineSeq s) :=
  List.decidablePerm _ _

/-! Helper lemmas. -/

/-- Membership in `dropWhile` is preserved for elements failing the predicate. -/
theorem mem_dropWhile_of_not {p : Char → Bool} {c : Char} {l : List Char}
    (hc : p c = false) (hm : c ∈ l) : c ∈ l.dropWhile p := by
  induction l with
  | nil => cases hm
  | cons a t ih =>
    rw [List.dropWhile_cons]
    by_cases ha : p a = true
    · rw [if_pos ha]
      rcases List.mem_cons.mp hm with h | h
      · rw [h] at hc; rw [hc] at ha; cases ha
      · exact ih h
    · rw [if_neg ha]; exact hm

/-- Stripping yields a sublist. -/
theorem strip_sublist (l : List Char) : (strip l).Sublist l := by
  have h2 : ((l.dropWhile isPySpace).reverse.dropWhile isPySpace).Sublist
      (l.dropWhile isPySpace).reverse := List.dropWhile_sublist _
  have h3 := h2.reverse
  rw [List.reverse_reverse] at h3
  exact h3.trans (List.dropWhile_sublist _)

/-- A non-whitespace member keeps the strip non-empty. -/
theorem strip_ne_nil_of_mem {c : Char} {l : List Char}
    (hc : isPySpace c = false) (hm : c ∈ l) : strip l ≠ [] := by
  have m1 : c ∈ l.dropWhile isPySpace := mem_dropWhile_of_not hc hm
  have m2 : c ∈ (l.dropWhile isPySpace).reverse := List.mem_reverse.mpr m1
  have m3 : c ∈ (l.dropWhile isPySpace).reverse.dropWhile isPySpace :=
    mem_dropWhile_of_not hc m2
  have m4 : c ∈ strip l := List.mem_reverse.mpr m3
  intro h
  rw [h] at m4
  cases m4

/-- A non-empty strip contains a non-whitespace character. -/
theorem strip_mem_nonws {l : List Char} (h : strip l ≠ []) :
    ∃ c, c ∈ strip l ∧ isPySpace c = false := by
  have hne : (l.dropWhile isPySpace).reverse.dropWhile isPySpace ≠ [] := by
    intro h0
    exact h (by unfold strip; rw [h0]; rfl)
  refine ⟨((l.dropWhile isPySpace).reverse.dropWhile isPySpace).head hne, ?_, ?_⟩
  · exact List.mem_reverse.mpr (List.head_mem hne)
  · exact List.head_dropWhile_not isPySpace _ hne

/-- `dropWhile` is idempotent. -/
theorem dropWhile_dropWhile (p : Char → Bool) (l : List Char) :
    (l.dropWhile p).dropWhile p = l.dropWhile p := by
  cases h : l.dropWhile p with
  | nil => rfl
  | cons a t =>
    have hne : List.dropWhile p l ≠ [] := by rw [h]; exact List.cons_ne_nil a t
    have ha : p a = false := by
      have h3 := List.head_dropWhile_not p l hne
      have h2 : (List.dropWhile p l).head? = some a := by rw [h]; rfl
      rw [List.head?_eq_head hne] at h2
      injection h2 with h4
      rw [h4] at h3
      exact h3
    rw [List.dropWhile_cons, if_neg (by rw [ha]; exact Bool.false_ne_true)]

/-- Lists whose ends fail the predicate are fixed by `dropWhile`. -/
theorem dropWhile_eq_self_of_head {p : Char → Bool} {l : List Char}
    (h : ∀ c, l.head? = some c → p c = false) : l.dropWhile p = l := by
  cases l with
  | nil => rfl
  | cons a t =>
    rw [List.dropWhile_cons, if_neg]
    rw [h a rfl]
    exact Bool.false_ne_true

/-- Stripping is idempotent. -/
theorem strip_idem (l : List Char) : strip (strip l) = strip l := by
  have hw := dropWhile_dropWhile isPySpace (l.dropWhile isPySpace).reverse
  have hA : (strip l).dropWhile isPySpace = strip l := by
    apply dropWhile_eq_self_of_head
    intro c hc
    unfold strip at hc
    rw [List.head?_reverse] at hc
    rcases List.dropWhile_suffix (l := (l.dropWhile isPySpace).reverse) isPySpace with ⟨t, ht⟩
    have hne : (l.dropWhile isPySpace).reverse.dropWhile isPySpace ≠ [] := by
      intro h0
      rw [h0] at hc
      cases hc
    have h1 : ((l.dropWhile isPySpace).reverse.dropWhile isPySpace).getLast? =
        (l.dropWhile isPySpace).reverse.getLast? := by
      conv_rhs => rw [← ht]
      rw [List.getLast?_append_of_ne_nil _ hne]
    rw [h1, List.getLast?_reverse] at hc
    have hu : l.dropWhile isPySpace ≠ [] := by
      intro h0
      rw [h0] at hc
      cases hc
    have h6 := List.head_dropWhile_not isPySpace l hu
    rw [List.head?_eq_head hu] at hc
    injection hc with h7
    rw [← h7]
    exact h6
  have h0 : strip (strip l) =
      (((strip l).dropWhile isPySpace).reverse.dropWhile isPySpace).reverse := rfl
  rw [h0, hA]
  show ((((l.dropWhile isPySpace).reverse.dropWhile
      isPySpace).reverse).reverse.dropWhile isPySpace).reverse = strip l
  rw [List.reverse_reverse, hw]
  rfl

/-- Dropping the length of the `takeWhile` part is `dropWhile`. -/
theorem drop_takeWhile_length (p : Char → Bool) :
    ∀ l : List Char, l.drop (l.takeWhile p).length = l.dropWhile p := by
  intro l
  induction l with
  | nil => rfl
  | cons a t ih =>
    rw [List.takeWhile_cons, List.dropWhile_cons]
    by_cases ha : p a = true
    · rw [if_pos ha, if_pos ha, List.length_cons, List.drop_succ_cons]
      exact ih
    · rw [if_neg ha, if_neg ha, List.length_nil, List.drop_zero]

/-- A doubleton sublist from a count bound. -/
theorem two_count_sublist {a : Char} :
    ∀ {l : List Char}, 2 ≤ l.count a → ([a, a]).Sublist l := by
  intro l
  induction l with
  | nil => intro h; rw [List.count_nil] at h; omega
  | cons b t ih =>
    intro h
    rw [List.count_cons] at h
    by_cases hb : (b == a) = true
    · have hba : b = a := by exact beq_iff_eq.mp hb
      subst hba
      rw [if_pos hb] at h
      have h2 : b ∈ t := List.count_pos_iff.mp (by omega)
      exact (List.singleton_sublist.mpr h2).cons₂ b
    · rw [if_neg hb] at h
      exact (ih (by omega)).cons b

/-- The collapsed text is a sublist of the original. -/
theorem collapseF_sublist : ∀ (f : Nat) (s : List Char), (collapseF f s).Sublist s := by
  intro f
  induction f with
  | zero => intro s; exact List.Sublist.refl s
  | succ f ih =>
    intro s
    cases s with
    | nil => exact List.Sublist.refl []
    | cons c t =>
      rw [collapseF]
      by_cases hc : c = '\n' ∧ 3 ≤ countNL ((c :: t).takeWhile isPySpace)
      · rw [if_pos hc]
        set run := (c :: t).takeWhile isPySpace with hrun
        set tail0 := run.reverse.takeWhile (fun x => !(x == '\n')) with htail
        set rem := run.reverse.dropWhile (fun x => !(x == '\n')) with hrem
        have hsplit : run = rem.reverse ++ tail0.reverse := by
          rw [htail, hrem, ← List.reverse_append, List.takeWhile_append_dropWhile,
            List.reverse_reverse]
        have htail0NL : tail0.count '\n' = 0 := by
          rw [List.count_eq_zero]
          intro hmem
          have := List.mem_takeWhile_imp hmem
          simp at this
        have hremNL : 2 ≤ rem.reverse.count '\n' := by
          have h1 : countNL run = tail0.count '\n' + rem.count '\n' := by
            rw [countNL, ← List.count_reverse]
            conv_lhs => rw [show run.reverse = tail0 ++ rem from
              (List.takeWhile_append_dropWhile _ _).symm]
            rw [List.count_append]
          rw [List.count_reverse]
          omega
        have hs : (c :: t) = run ++ (c :: t).drop run.length := by
          rw [hrun, drop_takeWhile_length, List.takeWhile_append_dropWhile]
        have h2 : (['\n', '\n'] ++ (tail0.reverse ++
            collapseF f ((c :: t).drop run.length))).Sublist
            (rem.reverse ++ (tail0.reverse ++ (c :: t).drop run.length)) :=
          List.Sublist.append (two_count_sublist hremNL)
            ((ih _).append_left tail0.reverse)
        have h3 : rem.reverse ++ (tail0.reverse ++ (c :: t).drop run.length) =
            run ++ (c :: t).drop run.length := by
          rw [hsplit, List.append_assoc]
        rw [h3] at h2
        conv_rhs => rw [hs]
        exact h2
      · rw [if_neg hc]
        exact (ih t).cons₂ c

/-- Collapsing the empty text gives the empty text. -/
theorem collapseF_nil (f : Nat) : collapseF f [] = [] := by
  cases f with
  | zero => rfl
  | succ f => rfl

/-- Collapsing preserves non-whitespace characters. -/
theorem collapseF_mem_nonws {c : Char} (hc : isPySpace c = false) :
    ∀ (f : Nat) (s : List Char), c ∈ s → c ∈ collapseF f s := by
  intro f
  induction f with
  | zero => intro s hm; exact hm
  | succ f ih =>
    intro s hm
    cases s with
    | nil => cases hm
    | cons a t =>
      rw [collapseF]
      by_cases ha : a = '\n' ∧ 3 ≤ countNL ((a :: t).takeWhile isPySpace)
      · rw [if_pos ha]
        have hs : (a :: t) = (a :: t).takeWhile isPySpace ++
            (a :: t).drop ((a :: t).takeWhile isPySpace).length := by
          rw [drop_takeWhile_length, List.takeWhile_append_dropWhile]
        rw [hs] at hm
        rcases List.mem_append.mp hm with h | h
        · have := List.mem_takeWhile_imp h
          rw [hc] at this
          cases this
        · have h2 := ih _ h
          exact List.mem_cons_of_mem _ (List.mem_cons_of_mem _
            (List.mem_append.mpr (Or.inr h2)))
      · rw [if_neg ha]
        rcases List.mem_cons.mp hm with h | h
        · exact h ▸ List.mem_cons_self a _
        · exact List.mem_cons_of_mem a (ih t h)

/-- Texts without newlines are fixed points of collapsing. -/
theorem collapseF_no_nl : ∀ (f : Nat) (s : List Char), '\n' ∉ s → collapseF f s = s := by
  intro f
  induction f with
  | zero => intro s _; rfl
  | succ f ih =>
    intro s hnl
    cases s with
    | nil => rfl
    | cons a t =>
      rw [collapseF, if_neg]
      · rw [ih t (fun h => hnl (List.mem_cons_of_mem a h))]
      · intro h
        exact hnl (h.1 ▸ List.mem_cons_self a t)

/-- Deleting pattern occurrences yields a sublist. -/
theorem replaceAllF_nil_sublist :
    ∀ (f : Nat) (pat s : List Char), (replaceAllF f pat [] s).Sublist s := by
  intro f
  induction f with
  | zero => intro pat s; exact List.Sublist.refl s
  | succ f ih =>
    intro pat s
    cases s with
    | nil => exact List.Sublist.refl []
    | cons c t =>
      rw [replaceAllF]
      by_cases hp : pat.isEmpty = true
      · rw [if_pos hp]
      · rw [if_neg hp]
        by_cases hpre : isPrefA pat (c :: t) = true
        · rw [if_pos hpre]
          rw [List.nil_append]
          exact (ih pat _).trans (List.drop_sublist _ _)
        · rw [if_neg hpre]
          exact (ih pat t).cons₂ c

/-- Folded deletion of a match list yields a sublist. -/
theorem foldl_replace_sublist :
    ∀ (ms : List (List Char)) (s : List Char),
      (ms.foldl (fun cur m => replaceAll m [] cur) s).Sublist s := by
  intro ms
  induction ms with
  | nil => intro s; exact List.Sublist.refl s
  | cons m ms ih =>
    intro s
    rw [List.foldl_cons]
    exact (ih _).trans (replaceAllF_nil_sublist _ _ _)

/-- The markup-removal residue is a sublist of the input. -/
theorem remMk_res_sublist : ∀ (ps : List MPat) (s : List Char), ((remMk ps s).1).Sublist s := by
  intro ps
  induction ps with
  | nil => intro s; exact List.Sublist.refl s
  | cons p ps ih =>
    intro s
    rw [remMk]
    exact (ih _).trans (foldl_replace_sublist _ _)

/-- The bracketed-data fold leaves a sublist of its input text. -/
theorem jsonFold_res_sublist :
    ∀ (ms : List (List Char)) (st : List Char × List (List Char)),
      ((jsonFold ms st).1).Sublist st.1 := by
  intro ms
  induction ms with
  | nil => intro st; exact List.Sublist.refl st.1
  | cons m ms ih =>
    intro st
    rw [jsonFold]
    by_cases hk : keywordHit m = true
    · rw [if_pos hk]
      exact (ih _).trans (replaceAllF_nil_sublist _ _ _)
    · rw [if_neg hk]
      exact ih st

/-- The bracketed-data residue is a sublist of the input. -/
theorem step3_res_sublist (s : List Char) : ((step3 s).1).Sublist s := by
  unfold step3 applyJsonPat
  exact (jsonFold_res_sublist _ _).trans (jsonFold_res_sublist _ _)

/-- The tag-removal residue is a sublist of the input. -/
theorem thinkScanF_res_sublist : ∀ (f : Nat) (s : List Char), ((thinkScanF f s).1).Sublist s := by
  intro f
  induction f with
  | zero => intro s; exact List.Sublist.refl s
  | succ f ih =>
    intro s
    cases s with
    | nil => exact List.Sublist.refl []
    | cons c t =>
      rw [thinkScanF]
      by_cases hp : isPrefCIa thinkOpen (c :: t) = true
      · rw [if_pos hp]
        cases hf : findIdxCI thinkClose ((c :: t).drop 7) with
        | none =>
          exact (ih t).cons₂ c
        | some j =>
          have h1 : (((c :: t).drop 7).drop (j + 8)).Sublist (c :: t) := by
            rw [List.drop_drop]
            exact List.drop_sublist _ _
          exact (ih _).trans h1
      · rw [if_neg hp]
        exact (ih t).cons₂ c

/-- With no matches the tag-removal residue is the input itself. -/
theorem thinkScanF_nomatch :
    ∀ (f : Nat) (s : List Char), (thinkScanF f s).2 = [] → (thinkScanF f s).1 = s := by
  intro f
  induction f with
  | zero => intro s _; rfl
  | succ f ih =>
    intro s hm
    cases s with
    | nil => rfl
    | cons c t =>
      rw [thinkScanF] at hm ⊢
      by_cases hp : isPrefCIa thinkOpen (c :: t) = true
      · rw [if_pos hp] at hm ⊢
        cases hf : findIdxCI thinkClose ((c :: t).drop 7) with
        | none =>
          rw [hf] at hm
          have hm2 : (thinkScanF f t).2 = [] := hm
          show c :: (thinkScanF f t).1 = c :: t
          rw [ih t hm2]
        | some j =>
          rw [hf] at hm
          exact (List.cons_ne_nil _ _ hm).elim
      · rw [if_neg hp] at hm ⊢
        simp only at hm ⊢
        rw [ih t hm]

/-- Splitting always produces at least one part. -/
theorem splitLines_ne_nil : ∀ s : List Char, splitLines s ≠ [] := by
  intro s
  cases s with
  | nil => exact List.cons_ne_nil _ _
  | cons c t =>
    rw [splitLines]
    by_cases hc : c = '\n'
    · rw [if_pos hc]; exact List.cons_ne_nil _ _
    · rw [if_neg hc]
      cases splitLines t with
      | nil => exact List.cons_ne_nil _ _
      | cons h r => exact List.cons_ne_nil _ _

/-- Join equation for a list with at least two parts. -/
theorem joinLines_cons (l : List Char) {ls : List (List Char)} (h : ls ≠ []) :
    joinLines (l :: ls) = l ++ '\n' :: joinLines ls := by
  cases ls with
  | nil => exact absurd rfl h
  | cons a t => rfl

/-- Joining undoes splitting. -/
theorem joinLines_splitLines : ∀ s : List Char, joinLines (splitLines s) = s := by
  intro s
  induction s with
  | nil => rfl
  | cons c t ih =>
    rw [splitLines]
    by_cases hc : c = '\n'
    · rw [if_pos hc, joinLines_cons [] (splitLines_ne_nil t), List.nil_append, ih, hc]
    · rw [if_neg hc]
      cases hsp : splitLines t with
      | nil => exact absurd hsp (splitLines_ne_nil t)
      | cons h r =>
        cases r with
        | nil =>
          show c :: h = c :: t
          have : joinLines (splitLines t) = t := ih
          rw [hsp] at this
          rw [show joinLines [h] = h from rfl] at this
          rw [this]
        | cons b rs =>
          rw [joinLines_cons (c :: h) (List.cons_ne_nil b rs)]
          have : joinLines (splitLines t) = t := ih
          rw [hsp, joinLines_cons h (List.cons_ne_nil b rs)] at this
          rw [List.cons_append, this]

/-- A newline-free text splits into itself alone. -/
theorem splitLines_no_nl : ∀ s : List Char, '\n' ∉ s → splitLines s = [s] := by
  intro s
  induction s with
  | nil => intro _; rfl
  | cons c t ih =>
    intro h
    rw [splitLines, if_neg (fun (hc : c = '\n') => h (hc ▸ List.mem_cons_self c t)),
      ih (fun hm => h (List.mem_cons_of_mem c hm))]

/-- Joining is monotone with respect to sublists of part lists. -/
theorem joinLines_sublist :
    ∀ {A B : List (List Char)}, A.Sublist B → (joinLines A).Sublist (joinLines B) := by
  intro A B h
  induction h with
  | slnil => exact List.Sublist.refl _
  | @cons A2 B2 b hAB ih =>
    cases B2 with
    | nil =>
      rw [List.sublist_nil.mp hAB]
      exact List.nil_sublist _
    | cons x r =>
      rw [joinLines_cons b (List.cons_ne_nil x r)]
      exact ih.trans ((List.sublist_cons_self '\n' _).trans
        (List.sublist_append_right b _))
  | @cons₂ A2 B2 x hAB ih =>
    cases A2 with
    | nil =>
      cases B2 with
      | nil => exact List.Sublist.refl _
      | cons y r =>
        rw [joinLines_cons x (List.cons_ne_nil y r)]
        show x.Sublist (x ++ '\n' :: joinLines (y :: r))
        conv_lhs => rw [← List.append_nil x]
        exact List.Sublist.append_left (List.nil_sublist _) x
    | cons a r =>
      have hBne : B2 ≠ [] := by
        intro hB
        subst hB
        exact List.cons_ne_nil a r (List.sublist_nil.mp hAB)
      rw [joinLines_cons x (List.cons_ne_nil a r), joinLines_cons x hBne]
      exact List.Sublist.append_left (ih.cons₂ '\n') x

/-- Resolving a metadata block empties the buffer. -/
theorem flushBlock_block (st : EState) : (flushBlock st).block = [] := by
  unfold flushBlock
  by_cases hc : 3 ≤ st.block.length ∨ st.started = false
  · rw [if_pos hc]
  · rw [if_neg hc]

/-- Resolving a metadata block preserves the classifier invariant and closes
the block. -/
theorem flushBlock_inv {st : EState} {pfx : List (List Char)} (h : EInv st pfx) :
    EInv (flushBlock st) pfx := by
  obtain ⟨_, h2, h3⟩ := h
  unfold flushBlock
  by_cases hc : 3 ≤ st.block.length ∨ st.started = false
  · rw [if_pos hc]
    refine ⟨fun _ => rfl, ?_, ?_⟩
    · show (st.clean ++ []).Sublist pfx
      rw [List.append_nil]
      exact (List.sublist_append_left st.clean st.block).trans h2
    · show (st.mcp ++ st.block ++ []).Sublist pfx
      rw [List.append_nil]
      exact h3
  · rw [if_neg hc]
    refine ⟨fun _ => rfl, ?_, ?_⟩
    · show (st.clean ++ st.block ++ []).Sublist pfx
      rw [List.append_nil]
      exact h2
    · show (st.mcp ++ []).Sublist pfx
      rw [List.append_nil]
      exact (List.sublist_append_left st.mcp st.block).trans h3

/-- Appending a line to the narrative (with possible start-of-content marking)
preserves the classifier invariant. -/
theorem classifyStart_inv {st : EState} {pfx l} (h : EInv st pfx)
    (hb : st.block = []) : EInv (classifyStart st l) (pfx ++ [l]) := by
  obtain ⟨h1, h2, h3⟩ := h
  rw [hb, List.append_nil] at h2 h3
  have hc2 : ((st.clean ++ [l]) ++ st.block).Sublist (pfx ++ [l]) := by
    rw [hb, List.append_nil]
    exact h2.append (List.Sublist.refl [l])
  have hc3 : (st.mcp ++ st.block).Sublist (pfx ++ [l]) := by
    rw [hb, List.append_nil]
    exact h3.trans (List.sublist_append_left pfx [l])
  unfold classifyStart
  by_cases hc : st.started = false ∧
      (looksConversational (lowerL (strip l)) ∨ 25 < (strip l).length)
  · rw [if_pos hc]
    exact ⟨fun _ => hb, hc2, hc3⟩
  · rw [if_neg hc]
    exact ⟨fun _ => hb, hc2, hc3⟩

/-- One classifier step preserves the invariant, the processed prefix growing by
the line. -/
theorem classifyLine_inv {st : EState} {pfx l} (h : EInv st pfx) :
    EInv (classifyLine st l) (pfx ++ [l]) := by
  obtain ⟨h1, h2, h3⟩ := h
  unfold classifyLine
  by_cases he : (strip l).isEmpty = true
  · rw [if_pos he]
    by_cases hib : st.inBlock = true
    · rw [if_pos hib]
      refine ⟨fun hf => absurd hf (by rw [hib]; exact fun h => nomatch h), ?_, ?_⟩
      · show (st.clean ++ (st.block ++ [l])).Sublist (pfx ++ [l])
        rw [← List.append_assoc]
        exact h2.append (List.Sublist.refl [l])
      · show (st.mcp ++ (st.block ++ [l])).Sublist (pfx ++ [l])
        rw [← List.append_assoc]
        exact h3.append (List.Sublist.refl [l])
    · rw [if_neg hib]
      have hb : st.block = [] := h1 (Bool.not_eq_true _ ▸ hib)
      rw [hb, List.append_nil] at h2 h3
      by_cases hst : st.started = true
      · rw [if_pos hst]
        refine ⟨fun _ => hb, ?_, ?_⟩
        · show ((st.clean ++ [l]) ++ st.block).Sublist (pfx ++ [l])
          rw [hb, List.append_nil]
          exact h2.append (List.Sublist.refl [l])
        · show (st.mcp ++ st.block).Sublist (pfx ++ [l])
          rw [hb, List.append_nil]
          exact h3.trans (List.sublist_append_left pfx [l])
      · rw [if_neg hst]
        refine ⟨fun _ => hb, ?_, ?_⟩
        · show (st.clean ++ st.block).Sublist (pfx ++ [l])
          rw [hb, List.append_nil]
          exact h2.trans (List.sublist_append_left pfx [l])
        · show ((st.mcp ++ [l]) ++ st.block).Sublist (pfx ++ [l])
          rw [hb, List.append_nil]
          exact h3.append (List.Sublist.refl [l])
  · rw [if_neg he]
    by_cases hmd : isMetadataLine (strip l) = true
    · rw [if_pos hmd]
      by_cases hib : st.inBlock = true
      · rw [if_pos hib]
        refine ⟨fun hf => absurd hf (by rw [hib]; exact fun h => nomatch h), ?_, ?_⟩
        · show (st.clean ++ (st.block ++ [l])).Sublist (pfx ++ [l])
          rw [← List.append_assoc]
          exact h2.append (List.Sublist.refl [l])
        · show (st.mcp ++ (st.block ++ [l])).Sublist (pfx ++ [l])
          rw [← List.append_assoc]
          exact h3.append (List.Sublist.refl [l])
      · rw [if_neg hib]
        have hb : st.block = [] := h1 (Bool.not_eq_true _ ▸ hib)
        rw [hb, List.append_nil] at h2 h3
        refine ⟨(fun hf => nomatch hf), ?_, ?_⟩
        · show (st.clean ++ [l]).Sublist (pfx ++ [l])
          exact h2.append (List.Sublist.refl [l])
        · show (st.mcp ++ [l]).Sublist (pfx ++ [l])
          exact h3.append (List.Sublist.refl [l])
    · rw [if_neg hmd]
      by_cases hib : st.inBlock = true
      · rw [if_pos hib]
        exact classifyStart_inv (flushBlock_inv ⟨h1, h2, h3⟩) (flushBlock_block st)
      · rw [if_neg hib]
        exact classifyStart_inv ⟨h1, h2, h3⟩ (h1 (Bool.not_eq_true _ ▸ hib))

/-- The loop preserves the invariant along any processed line list. -/
theorem foldl_classify_inv :
    ∀ (lines : List (List Char)) (st : EState) (pfx : List (List Char)),
      EInv st pfx → EInv (lines.foldl classifyLine st) (pfx ++ lines) := by
  intro lines
  induction lines with
  | nil =>
    intro st pfx h
    rw [List.append_nil]
    exact h
  | cons l ls ih =>
    intro st pfx h
    rw [List.foldl_cons]
    have h2 := ih (classifyLine st l) (pfx ++ [l]) (classifyLine_inv h)
    rw [List.append_assoc] at h2
    exact h2

/-- The narrative lines retained by the classifier form a sublist of the input
lines. -/
theorem classifyAll_clean_sublist (lines : List (List Char)) :
    ((classifyAll lines).clean).Sublist lines := by
  have h0 : EInv initE [] :=
    ⟨fun _ => rfl, List.nil_sublist [], List.nil_sublist []⟩
  have h := foldl_classify_inv lines initE [] h0
  rw [List.nil_append] at h
  obtain ⟨h1, h2, h3⟩ := h
  unfold classifyAll finishBlocks
  by_cases hb : (lines.foldl classifyLine initE).inBlock = true ∧
      (lines.foldl classifyLine initE).block ≠ []
  · rw [if_pos hb]
    unfold flushBlock
    by_cases hc : 3 ≤ (lines.foldl classifyLine initE).block.length ∨
        (lines.foldl classifyLine initE).started = false
    · rw [if_pos hc]
      exact (List.sublist_append_left _ _).trans h2
    · rw [if_neg hc]
      exact h2
  · rw [if_neg hb]
    exact (List.sublist_append_left _ _).trans h2

/-- The narrative of the enhanced main pass is a sublist of the input. -/
theorem mainClean_sublist (r : List Char) : (mainCleanOf r).Sublist r := by
  have hcl := classifyAll_clean_sublist (splitLines (step3 (removeMarkup r).1).1)
  have hjoin := joinLines_sublist hcl
  rw [joinLines_splitLines] at hjoin
  have h1 : (mainCleanOf r).Sublist (joinLines (mainState r).clean) :=
    (collapseF_sublist _ _).trans (strip_sublist _)
  exact h1.trans (hjoin.trans ((step3_res_sublist _).trans (remMk_res_sublist _ _)))

/-- The Tier-2 narrative is a sublist of the input. -/
theorem tier2Clean_sublist (r : List Char) : (tier2CleanOf r).Sublist r :=
  (strip_sublist _).trans ((collapseF_sublist _ _).trans (remMk_res_sublist _ _))

/-- The narrative returned by the enhanced pass is a sublist of the input: no
character of the narrative is invented or duplicated. -/
theorem enhanced_narrative_sublist (r : List Char) :
    ((process_mcp_response_enhanced r).1).Sublist r := by
  show (enhancedNarrative r).Sublist r
  unfold enhancedNarrative
  split
  · exact List.nil_sublist r
  · split
    · exact tier2Clean_sublist r
    · split
      · exact strip_sublist r
      · exact mainClean_sublist r

/-- If the main pass kept a non-empty narrative, the Tier-2 narrative is also
non-empty: the non-whitespace character the main narrative retains survives the
markup-only removal, the collapsing and the stripping of Tier 2. -/
theorem tier2Clean_nonempty (r : List Char) (h : mainCleanOf r ≠ []) :
    tier2CleanOf r ≠ [] := by
  have hx : strip (joinLines (mainState r).clean) ≠ [] := by
    intro h0
    apply h
    unfold mainCleanOf
    rw [h0]
    unfold collapseNL
    exact collapseF_nil _
  obtain ⟨c, hc1, hc2⟩ := strip_mem_nonws hx
  have hc3 : c ∈ joinLines (mainState r).clean := (strip_sublist _).subset hc1
  have hcl := joinLines_sublist (classifyAll_clean_sublist
    (splitLines (step3 (removeMarkup r).1).1))
  rw [joinLines_splitLines] at hcl
  have hc4 : c ∈ (step3 (removeMarkup r).1).1 := hcl.subset hc3
  have hc5 : c ∈ (removeMarkup r).1 := (step3_res_sublist _).subset hc4
  have hc6 : c ∈ collapseNL (removeMarkup r).1 := collapseF_mem_nonws hc2 _ _ hc5
  exact strip_ne_nil_of_mem hc2 hc6

/-- The enhanced pass never returns an empty narrative for an input with
non-whitespace content. -/
theorem enhanced_narrative_nonempty (r : List Char) (h : strip r ≠ []) :
    (process_mcp_response_enhanced r).1 ≠ [] := by
  have h1 : ¬(strip r).isEmpty = true := by
    intro h0
    exact h (List.isEmpty_iff.mp h0)
  show enhancedNarrative r ≠ []
  unfold enhancedNarrative
  split
  · next h0 => exact absurd h0 h1
  · split
    · next h2 => exact tier2Clean_nonempty r (fun h0 => h2.1 (by rw [h0]; rfl))
    · split
      · next h3 => exact h
      · next h2 h3 =>
        intro h0
        exact h3 ⟨by rw [h0]; rfl, h1⟩

/-- A present main-pass structured-data value is trimmed. -/
theorem mainMcpOf_trimmed {r d : List Char} (h : mainMcpOf r = some d) :
    strip d = d := by
  unfold mainMcpOf at h
  by_cases hE : (mainAllMcp r).isEmpty = true
  · rw [if_pos hE] at h
    cases h
  · rw [if_neg hE] at h
    injection h with h2
    rw [← h2, strip_idem]

/-- A present Tier-2 structured-data value is trimmed. -/
theorem tier2McpOf_trimmed {r d : List Char} (h : tier2McpOf r = some d) :
    strip d = d := by
  unfold tier2McpOf at h
  by_cases hE : ((removeMarkup r).2).isEmpty = true
  · rw [if_pos hE] at h
    cases h
  · rw [if_neg hE] at h
    injection h with h2
    rw [← h2, strip_idem]

/-- A present structured-data value of the enhanced pass is trimmed. -/
theorem enhanced_data_trimmed {r d : List Char}
    (h : (process_mcp_response_enhanced r).2 = some d) : strip d = d := by
  have h2 : enhancedData r = some d := h
  clear h
  unfold enhancedData at h2
  split at h2
  · cases h2
  · split at h2
    · exact tier2McpOf_trimmed h2
    · split at h2
      · exact mainMcpOf_trimmed h2
      · exact mainMcpOf_trimmed h2

/-- When no metadata block is open, the trailing-block resolution is the
identity. -/
theorem finishBlocks_not_inBlock {st : EState} (h : st.inBlock = false) :
    finishBlocks st = st := by
  unfold finishBlocks
  rw [if_neg]
  intro hc
  rw [h] at hc
  exact nomatch hc.1

/-- The start-of-content decision never touches the narrative append nor the
other components. -/
theorem classifyStart_fields (st : EState) (l : List Char) :
    (classifyStart st l).clean = st.clean ++ [l] ∧ (classifyStart st l).mcp = st.mcp ∧
      (classifyStart st l).block = st.block ∧ (classifyStart st l).inBlock = st.inBlock := by
  unfold classifyStart
  split
  · exact ⟨rfl, rfl, rfl, rfl⟩
  · exact ⟨rfl, rfl, rfl, rfl⟩

/-! Claims. -/

/-- Claim C1, counterexample: the input consisting of a single reasoning tag
pair has non-empty trimmed content, yet `process_agent_response` returns the
empty narrative — the safety net runs on the tag-stripped text, which is empty
here, so the claim as stated (over the trimmed original input) is false. -/
theorem c1_counterexample :
    strip ("<think>hi</think>".toList) ≠ [] ∧
      (process_agent_response ("<think>hi</think>".toList)).1 = [] := by
  constructor
  · decide
  · decide

/-- Claim C1 as amended: for every input whose tag-stripped text is non-empty
after trimming, the narrative returned by `process_agent_response` is never the
empty string. -/
theorem c1_theorem (s : List Char)
    (h : strip (process_thinking_response s).1 ≠ []) :
    (process_agent_response s).1 ≠ [] :=
  enhanced_narrative_nonempty _ h

/-- Claim C1 witness at the concrete input `Hello`. -/
theorem c1_witness : (process_agent_response ("Hello".toList)).1 ≠ [] :=
  c1_theorem ("Hello".toList) (by decide)

/-- Claim C2: in the `process_mcp_response` line classifier, once narrative has
started, a technical (non-blank, non-marker) line is kept in the narrative with
the consecutive-technical counter reset exactly while the counter is below the
cap of 2; at or above the cap it is routed to the technical accumulation and
the counter is incremented. -/
theorem c2_theorem (isTech : List Char → Bool) (st : MState) (line : List Char)
    (h1 : st.started = true) (h2 : isTech line = true)
    (h3 : (strip line).isEmpty = false) (h4 : strip line ≠ jsonMarker) :
    (st.ctr < 2 →
      mcpLoopStep isTech st line = { st with clean := st.clean ++ [line], ctr := 0 }) ∧
    (2 ≤ st.ctr →
      mcpLoopStep isTech st line = { st with mcp := st.mcp ++ [line], ctr := st.ctr + 1 }) := by
  have hla : mcpLookahead isTech st line = st := by
    unfold mcpLookahead
    rw [if_neg]
    intro hc
    rw [h2] at hc
    exact nomatch hc.1
  have hstep : mcpLoopStep isTech st line = mcpRoute isTech st line := by
    unfold mcpLoopStep
    rw [if_neg (by rw [h3]; exact fun hx => nomatch hx), if_neg h4, hla]
  constructor
  · intro hlt
    rw [hstep]
    unfold mcpRoute
    rw [if_neg (fun hc => by rw [h1] at hc; exact nomatch hc.2),
      if_pos ⟨h2, h1, hlt⟩]
  · intro hge
    rw [hstep]
    unfold mcpRoute
    rw [if_neg (fun hc => by rw [h1] at hc; exact nomatch hc.2),
      if_neg (fun hc => absurd hc.2.2 (Nat.not_lt.mpr hge)),
      if_neg (by rw [h2]; exact fun hx => nomatch hx)]

/-- Claim C2 witness: a technical line at counter 2 after narrative started is
routed to the technical accumulation with the counter incremented. -/
theorem c2_witness :
    mcpLoopStep (fun _ => true) { started := true, ctr := 2, clean := [], mcp := [] }
      ("a: b: c".toList) =
      { started := true, ctr := 3, clean := [], mcp := [("a: b: c".toList)] } :=
  (c2_theorem (fun _ => true) { started := true, ctr := 2, clean := [], mcp := [] }
    ("a: b: c".toList) rfl rfl (by decide) (by decide)).2 (by decide)

/-- Claim C3: tag-delimited extraction on the two specification examples —
spans are removed, inner contents trimmed and blank-line joined in order, and
structured data stays absent. -/
theorem c3_theorem :
    process_agent_response ("<think>abc</think>Hello".toList) =
        ("Hello".toList, some ("abc".toList), none) ∧
      process_agent_response ("<think>a</think><think>b</think>Hi".toList) =
        ("Hi".toList, some ("a\n\nb".toList), none) := by
  constructor
  · decide
  · decide

/-- Claim C4, counterexample: a blank line collected before narrative start
makes structuredData the empty string (not absent), and a tag pair with
whitespace-only content makes reasoning the empty string — so the fields are
not always absent-or-non-empty. -/
theorem c4_counterexample :
    (process_agent_response ("Hi\n\nHello".toList)).2.2 = some [] ∧
      (process_agent_response ("<think> </think>Hello".toList)).2.1 = some [] := by
  constructor
  · decide
  · decide

/-- Claim C4 as amended: a present structuredData value is always a trimmed
string (it can be empty when only whitespace content was collected), and the
reasoning field is absent exactly when no tag pair was matched (it can be empty
when the matched contents are whitespace-only). -/
theorem c4_theorem (s : List Char) :
    (∀ d, (process_agent_response s).2.2 = some d → strip d = d) ∧
      ((process_agent_response s).2.1 = none ↔ (thinkScan s).2 = []) := by
  constructor
  · intro d hd
    exact enhanced_data_trimmed hd
  · show (if (thinkScan s).2.isEmpty then none else
        some (joinBlank ((thinkScan s).2.map strip))) = none ↔ (thinkScan s).2 = []
    by_cases hE : (thinkScan s).2.isEmpty = true
    · rw [if_pos hE]
      exact ⟨fun _ => List.isEmpty_iff.mp hE, fun _ => rfl⟩
    · rw [if_neg hE]
      constructor
      · intro h0
        cases h0
      · intro h0
        exact absurd (by rw [h0]; rfl) hE

/-- Claim C4 witness at the concrete input with an empty collected chunk. -/
theorem c4_witness : strip ([] : List Char) = [] :=
  (c4_theorem ("Hi\n\nHello".toList)).1 [] (by decide)

/-- Claim C6, counterexample: on this input the narrative keeps only one of the
newlines created by deleting the two bracketed spans (blank runs are
collapsed), and the structured data is joined with invented blank-line
separators, so the lines of the outputs are not a permutation of the lines of
the post-tag-removal input. -/
theorem c6_counterexample :
    ¬ reconstructsLineSeq
      ("I am here today, really.\n\x7bid: a\x7d\n\x7bid: b\x7d\nYes.".toList) := by
  decide

/-- Claim C6 as amended: full line-sequence reconstruction fails, but no
character content is invented or duplicated in the narrative — the narrative is
always a subsequence (sublist) of the post-tag-removal input. -/
theorem c6_theorem (s : List Char) :
    ((process_agent_response s).1).Sublist (process_thinking_response s).1 :=
  enhanced_narrative_sublist (process_thinking_response s).1

/-- Claim C7: the pipeline is a total pure function; its monadic rendering with
Python-style error propagation always returns `ok` with the pure value, for
every input including empty and pathological ones. -/
theorem c7_theorem (s : List Char) :
    process_agent_responseE s = Except.ok (process_agent_response s) := rfl

/-- Claim C9, counterexample: an input may contain an opening tag with no
matching closing tag and still yield a present reasoning value (from an earlier
complete pair), contradicting the claim that the reasoning field is absent for
every such input. -/
theorem c9_counterexample :
    hasUnclosedOpenTag ("<think>a</think><think>b".toList) = true ∧
      (process_agent_response ("<think>a</think><think>b".toList)).2.1 =
        some ("a".toList) := by
  constructor
  · decide
  · decide

/-- Claim C9 as amended: when the tag scanner matches no complete pair — in
particular when the only tags present are unclosed opening tags — the text is
left untouched (the residue equals the input), the output text is unchanged
apart from whitespace normalisation (blank-run collapsing and trimming), and
the reasoning field is absent. -/
theorem c9_theorem (s : List Char) (h : (thinkScan s).2 = []) :
    (thinkScan s).1 = s ∧
      process_thinking_response s = (strip (collapseNL s), none) := by
  have hres : (thinkScan s).1 = s := thinkScanF_nomatch _ _ h
  refine ⟨hres, ?_⟩
  unfold process_thinking_response
  rw [h, hres]
  rfl

/-- Claim C9 witness at a concrete unterminated-tag input. -/
theorem c9_witness :
    (thinkScan ("<think>abc".toList)).1 = "<think>abc".toList ∧
      process_thinking_response ("<think>abc".toList) =
        (strip (collapseNL ("<think>abc".toList)), none) :=
  c9_theorem ("<think>abc".toList) (by decide)

/-- Claim C10: for a non-whitespace input, when the primary pass leaves an
empty narrative the Tier-2 fallback is skipped and the trimmed input is
returned with the already collected structured data; and the Tier-2 fallback
result is returned exactly when the primary narrative is non-empty and shorter
than a quarter of the input. -/
theorem c10_theorem (r : List Char) (h : strip r ≠ []) :
    (mainCleanOf r = [] →
      process_mcp_response_enhanced r = (strip r, mainMcpOf r)) ∧
    (mainCleanOf r ≠ [] → 4 * (mainCleanOf r).length < r.length →
      process_mcp_response_enhanced r = (tier2CleanOf r, tier2McpOf r)) ∧
    (mainCleanOf r ≠ [] → ¬4 * (mainCleanOf r).length < r.length →
      process_mcp_response_enhanced r = (mainCleanOf r, mainMcpOf r)) := by
  have h1 : ¬(strip r).isEmpty = true := fun h0 => h (List.isEmpty_iff.mp h0)
  refine ⟨?_, ?_, ?_⟩
  · intro hm
    have hN : enhancedNarrative r = strip r := by
      unfold enhancedNarrative
      split
      · next h0 => exact absurd h0 h1
      · split
        · next hc => exact absurd (by rw [hm]; rfl) hc.1
        · split
          · rfl
          · next hc3 => exact absurd ⟨by rw [hm]; rfl, h1⟩ hc3
    have hD : enhancedData r = mainMcpOf r := by
      unfold enhancedData
      split
      · next h0 => exact absurd h0 h1
      · split
        · next hc => exact absurd (by rw [hm]; rfl) hc.1
        · split
          · rfl
          · rfl
    show (enhancedNarrative r, enhancedData r) = _
    rw [hN, hD]
  · intro hm hlt
    have hc2 : ¬(mainCleanOf r).isEmpty = true ∧
        4 * (mainCleanOf r).length < r.length :=
      ⟨fun h0 => hm (List.isEmpty_iff.mp h0), hlt⟩
    have hN : enhancedNarrative r = tier2CleanOf r := by
      unfold enhancedNarrative
      split
      · next h0 => exact absurd h0 h1
      · rfl
    have hD : enhancedData r = tier2McpOf r := by
      unfold enhancedData
      split
      · next h0 => exact absurd h0 h1
      · rfl
    show (enhancedNarrative r, enhancedData r) = _
    rw [hN, hD]
  · intro hm hlt
    have hN : enhancedNarrative r = mainCleanOf r := by
      unfold enhancedNarrative
      split
      · next hx => exact absurd hx h1
      · split
        · next hc => exact absurd hc.2 hlt
        · split
          · next hc => exact absurd (List.isEmpty_iff.mp hc.1) hm
          · rfl
    have hD : enhancedData r = mainMcpOf r := by
      unfold enhancedData
      split
      · next hx => exact absurd hx h1
      · split
        · next hc => exact absurd hc.2 hlt
        · split
          · rfl
          · rfl
    show (enhancedNarrative r, enhancedData r) = _
    rw [hN, hD]

/-- Claim C10 witness: a two-line metadata input empties the primary narrative,
so the fallback returns the trimmed input with the collected metadata. -/
theorem c10_witness :
    process_mcp_response_enhanced ("ID: 5\nKEY: 2".toList) =
      (strip ("ID: 5\nKEY: 2".toList), mainMcpOf ("ID: 5\nKEY: 2".toList)) :=
  (c10_theorem ("ID: 5\nKEY: 2".toList) (by decide)).1 (by decide)

/-- Claim C5, counterexample: the first run returns through the Tier-2 fallback
and its narrative still contains a keyword-bearing bracketed span; the second
run removes that span, so the narrative is not a fixed point. -/
theorem c5_counterexample :
    (process_agent_response ((process_agent_response
        ("I am ok now.\n\x7bid: 1\x7d\n<fnr>XXXXXXXXXXXXXXXXX</fnr>".toList)).1)).1 ≠
      (process_agent_response
        ("I am ok now.\n\x7bid: 1\x7d\n<fnr>XXXXXXXXXXXXXXXXX</fnr>".toList)).1 := by
  decide

/-- Claim C5 as amended: reprocessing a narrative is the identity (same
narrative, reasoning and structuredData absent) when the narrative is a single
trimmed line in which none of the extractors finds anything: no newline, no tag
pair, no markup match, no removable bracketed span, and the line is not
metadata-shaped.  Narratives produced through the fallback tiers can violate
these conditions and are re-filtered. -/
theorem c5_theorem (N : List Char) (h0 : '\n' ∉ N) (h1 : strip N = N)
    (h2 : thinkScan N = (N, [])) (h3 : removeMarkup N = (N, []))
    (h4 : step3 N = (N, [])) (h5 : isMetadataLine N = false) :
    process_agent_response N = (N, none, none) := by
  have hthink : process_thinking_response N = (N, none) := by
    unfold process_thinking_response
    rw [h2]
    show (strip (collapseNL N), none) = (N, none)
    unfold collapseNL
    rw [collapseF_no_nl _ _ h0, h1]
  by_cases hN : N = []
  · subst hN
    decide
  · have hNs : strip N ≠ [] := by rw [h1]; exact hN
    have hline : classifyLine initE N = classifyStart initE N := by
      unfold classifyLine
      rw [h1]
      rw [if_neg (fun hc => hN (List.isEmpty_iff.mp hc)),
        if_neg (fun hc => by rw [h5] at hc; exact nomatch hc),
        if_neg (fun hc : initE.inBlock = true => nomatch hc)]
    have hms : mainState N = classifyStart initE N := by
      unfold mainState
      rw [h3]
      show classifyAll (splitLines (step3 N).1) = _
      rw [h4]
      show classifyAll (splitLines N) = _
      rw [splitLines_no_nl N h0]
      unfold classifyAll
      show finishBlocks (classifyLine initE N) = _
      rw [hline,
        finishBlocks_not_inBlock ((classifyStart_fields initE N).2.2.2.trans rfl)]
    have hclean : (mainState N).clean = [N] := by
      rw [hms, (classifyStart_fields initE N).1]
      rfl
    have hmcp2 : (mainState N).mcp = [] := by
      rw [hms, (classifyStart_fields initE N).2.1]
      rfl
    have hmain : mainCleanOf N = N := by
      unfold mainCleanOf
      rw [hclean]
      show collapseNL (strip N) = N
      rw [h1]
      unfold collapseNL
      exact collapseF_no_nl _ _ h0
    have hall : mainAllMcp N = [] := by
      have e1 : (removeMarkup N).2 = ([] : List (List Char)) := by rw [h3]
      have e2 : (removeMarkup N).1 = N := by rw [h3]
      unfold mainAllMcp
      rw [e1, e2, h4, hmcp2]
      rfl
    have hdata : mainMcpOf N = none := by
      unfold mainMcpOf
      rw [hall]
      rfl
    have hnarr : enhancedNarrative N = N := by
      unfold enhancedNarrative
      split
      · next hx => exact absurd (List.isEmpty_iff.mp hx) hNs
      · split
        · next hc => exact absurd hc.2 (by rw [hmain]; omega)
        · split
          · next hc =>
            exact absurd (List.isEmpty_iff.mp hc.1) (by rw [hmain]; exact hN)
          · exact hmain
    have hdat2 : enhancedData N = none := by
      unfold enhancedData
      split
      · rfl
      · split
        · next hc => exact absurd hc.2 (by rw [hmain]; omega)
        · split
          · next hc =>
            exact absurd (List.isEmpty_iff.mp hc.1) (by rw [hmain]; exact hN)
          · exact hdata
    unfold process_agent_response
    rw [hthink]
    show (enhancedNarrative N, none, enhancedData N) = (N, none, none)
    rw [hnarr, hdat2]

/-- Claim C5 witness: a single conversational line with no extractable content
is a fixed point of the pipeline. -/
theorem c5_witness :
    process_agent_response ("I like this plan a lot.".toList) =
      ("I like this plan a lot.".toList, none, none) :=
  c5_theorem ("I like this plan a lot.".toList) (by decide) (by decide)
    (by decide) (by decide) (by decide) (by decide)

/-- Claim C8, counterexample: for a JSON object with title and url keys
followed by a short two-sentence explanation, the Tier-2 fallback fires (the
explanation is under a quarter of the input), so the narrative is the whole
input rather than the explanation and the structured data is absent rather
than the JSON text. -/
theorem c8_counterexample :
    (process_agent_response
        ("\x7b\"title\": \"AAAAAAAAAAAAAAAAAAAAAAAAAAAAAA\", \"url\": \"B\"\x7d\nGo now. Bye.".toList)).1 ≠
        ("Go now. Bye.".toList) ∧
      (process_agent_response
        ("\x7b\"title\": \"AAAAAAAAAAAAAAAAAAAAAAAAAAAAAA\", \"url\": \"B\"\x7d\nGo now. Bye.".toList)).2.2 =
        none := by
  constructor
  · decide
  · decide

/-- Claim C8 as amended: for such inputs whose explanation is conversational
prose long enough that no fallback tier fires — as in this concrete instance —
the narrative equals the trimmed explanation and structuredData contains the
JSON text verbatim, the brace span being removed exactly because its lowercase
content contains a keyword from the fixed API-payload set. -/
theorem c8_theorem :
    process_agent_response
        ("\x7b\"title\": \"X\", \"url\": \"Y\"\x7d\nThis is a nice result for you. It works well for me.".toList) =
      ("This is a nice result for you. It works well for me.".toList, none,
        some ("\x7b\"title\": \"X\", \"url\": \"Y\"\x7d".toList)) ∧
      keywordHit ("\x7b\"title\": \"X\", \"url\": \"Y\"\x7d".toList) = true := by
  constructor
  · decide
  · decide

end RP
